import Mathlib

/-!
Verification development for the `better-agents` CLI repository.

This file shallowly embeds the components the specification talks about:

* `src/providers/skills/metadata-parser.ts` — `parseSkillMetadata`,
  `isCacheValid`, `loadCache`, `saveCache`, `clearSkillsCache`,
  `fetchSkillMetadata`, `fetchSkills` (skills fetch-and-cache subsystem);
* the skill installer (`installSkill` / `installSkills`);
* the telemetry flag check (`isTelemetryDisabled`);
* the project-goal resolution of `collectConfig` (skills-prefix logic).

JavaScript strings are modelled as `String` / `List Char`; the JS regular
expressions used by the parser are translated into equivalent explicit
scanning functions (the patterns are simple literals followed by
whitespace classes and lazy/greedy any-char groups whose behaviour is
spelled out directly).  File-system and network effects are modelled by
explicit state passing (`CacheSlot`) and an environment record
(`FetchEnv`); clock reads are an explicit `now` parameter.
-/

/-! ## JS string primitives -/

/-- JS `\s` whitespace class restricted to the ASCII range (the documents
involved are ASCII). -/
def jsIsSpace (c : Char) : Bool :=
  c = ' ' || c = '\t' || c = '\n' || c = '\r' || c = '\x0b' || c = '\x0c'

/-- JS line terminators excluded by the regex `.` class. -/
def isLineTerm (c : Char) : Bool :=
  c = '\n' || c = '\r'

/-- JS `String.prototype.trim` on a list of characters. -/
def jsTrim (s : List Char) : List Char :=
  ((s.dropWhile jsIsSpace).reverse.dropWhile jsIsSpace).reverse

/-- JS `String.prototype.trim`. -/
def jsTrimStr (s : String) : String :=
  String.mk (jsTrim s.data)

/-- JS `String.prototype.toLowerCase` (ASCII case mapping). -/
def jsToLower (s : String) : String :=
  String.mk (s.data.map Char.toLower)

/-- JS `String.prototype.startsWith`. -/
def jsStartsWith (pre s : String) : Bool :=
  pre.data.isPrefixOf s.data

/-- JS `String.prototype.includes` on lists of characters. -/
def containsSub (pat : List Char) : List Char → Bool
  | [] => pat.isPrefixOf []
  | c :: rest => pat.isPrefixOf (c :: rest) || containsSub pat rest

/-- JS `Array.prototype.join(', ')`. -/
def joinComma : List String → String
  | [] => ""
  | [s] => s
  | s :: rest => s ++ ", " ++ joinComma rest

/-- JS `String.prototype.split('\n')` on a list of characters. -/
def splitOnNl : List Char → List (List Char)
  | [] => [[]]
  | c :: rest =>
    if c = '\n' then [] :: splitOnNl rest
    else
      match splitOnNl rest with
      | l :: ls => (c :: l) :: ls
      | [] => [[c]]

/-! ## The regexes of `metadata-parser.ts`

`parseSkillMetadata` uses four regular expressions:

* section extraction: `/## Metadata\s+([\s\S]*?)(?=\n##|$)/` and
  `/## Purpose\s+([\s\S]*?)(?=\n##|$)/` — find the first occurrence of the
  literal followed by at least one whitespace character; the greedy `\s+`
  consumes the maximal whitespace run (no backtracking occurs because the
  lazy group always succeeds at end of input), and the lazy group captures
  up to the first position where `"\n##"` follows or the input ends;
* field extraction: `/\*\*Name:\*\*\s*(.+)/` (and the `Created`,
  `Required MCP Server`, `Authentication` variants) and
  `/# Skill Summary:\s*(.+)/` — find the first occurrence of the literal
  after which a capture is possible; `\s*` greedily consumes whitespace and
  backtracks right-to-left until `.+` can match at least one
  non-line-terminator character, which then captures greedily up to the
  next line terminator. -/

/-- Capture of the lazy group `([\s\S]*?)` bounded by the lookahead
`(?=\n##|$)`. -/
def takeUntilSectionEnd : List Char → List Char
  | [] => []
  | c :: rest =>
    if ['\n', '#', '#'].isPrefixOf (c :: rest) then []
    else c :: takeUntilSectionEnd rest

/-- Match `pat ++ \s+ ++ ([\s\S]*?) (?=\n##|$)` at the head of the scanned
suffix: requires at least one whitespace character after the literal. -/
def sectionHere (s : List Char) : Option (List Char) :=
  match s with
  | c :: _ =>
    if jsIsSpace c then
      some (takeUntilSectionEnd (s.dropWhile jsIsSpace))
    else none
  | [] => none

/-- `content.match(/pat\s+([\s\S]*?)(?=\n##|$)/)`: scan for the first
position where the literal pattern plus the rest of the regex matches, and
return the capture. -/
def findSection (pat : List Char) : List Char → Option (List Char)
  | [] => none
  | c :: rest =>
    if pat.isPrefixOf (c :: rest) then
      match sectionHere ((c :: rest).drop pat.length) with
      | some cap => some cap
      | none => findSection pat rest
    else findSection pat rest

/-- Greedy `.+` capture: the maximal run of non-line-terminator
characters. -/
def takeLine (s : List Char) : List Char :=
  s.takeWhile (fun c => !isLineTerm c)

/-- Backtracking search for the start of the `(.+)` capture after `\s*`:
try to start at offset `j`, and on failure retry at `j - 1` (the regex
engine hands whitespace characters back to the lazy side one at a time). -/
def fieldStart (s : List Char) : Nat → Option (List Char)
  | 0 =>
    match s with
    | c :: _ => if isLineTerm c then none else some (takeLine s)
    | [] => none
  | j + 1 =>
    match s.drop (j + 1) with
    | c :: _ =>
      if isLineTerm c then fieldStart s j
      else some (takeLine (s.drop (j + 1)))
    | [] => fieldStart s j

/-- Match `\s*(.+)` at the head of the scanned suffix. -/
def fieldCapture (s : List Char) : Option (List Char) :=
  fieldStart s (s.takeWhile jsIsSpace).length

/-- `content.match(/pat\s*(.+)/)`: scan for the first position where the
literal pattern plus a non-empty single-line capture matches. -/
def findField (pat : List Char) : List Char → Option (List Char)
  | [] => none
  | c :: rest =>
    if pat.isPrefixOf (c :: rest) then
      match fieldCapture ((c :: rest).drop pat.length) with
      | some cap => some cap
      | none => findField pat rest
    else findField pat rest

/-! ## `parseSkillMetadata` -/

/-- `SkillMetadata` interface of `metadata-parser.ts`; optional fields are
`Option`s. -/
structure SkillMetadata where
  name : String
  description : String
  created : Option String := none
  requiredMCPServer : Option String := none
  authentication : Option String := none
  mcpServers : Option (List String) := none
  dependsOn : Option (List String) := none
  tags : Option (List String) := none
  deriving Repr, DecidableEq

/-- The `**Name:**` field of the `## Metadata` section, trimmed
(`metadataMatch` then `nameMatch` in the source). -/
def nameField (content : String) : Option String :=
  (findSection (("## Metadata").data) content.data).bind fun sec =>
    (findField (("**Name:**").data) sec).map fun v => String.mk (jsTrim v)

/-- The `**Created:**` field of the `## Metadata` section, trimmed. -/
def createdField (content : String) : Option String :=
  (findSection (("## Metadata").data) content.data).bind fun sec =>
    (findField (("**Created:**").data) sec).map fun v => String.mk (jsTrim v)

/-- The `**Required MCP Server:**` field of the `## Metadata` section,
trimmed. -/
def mcpServerField (content : String) : Option String :=
  (findSection (("## Metadata").data) content.data).bind fun sec =>
    (findField (("**Required MCP Server:**").data) sec).map fun v =>
      String.mk (jsTrim v)

/-- The `**Authentication:**` field of the `## Metadata` section,
trimmed. -/
def authField (content : String) : Option String :=
  (findSection (("## Metadata").data) content.data).bind fun sec =>
    (findField (("**Authentication:**").data) sec).map fun v =>
      String.mk (jsTrim v)

/-- `purposeMatch[1].trim().split('\n')[0].trim()` when the `## Purpose`
section exists, `''` otherwise. -/
def purposeFirstLine (content : String) : String :=
  match findSection (("## Purpose").data) content.data with
  | some sec => String.mk (jsTrim ((jsTrim sec).takeWhile (fun c => c ≠ '\n')))
  | none => ""

/-- `content.split('\n')`. -/
def contentLines (content : String) : List (List Char) :=
  splitOnNl content.data

/-- `lines.findIndex(l => l.includes('# Skill Summary:'))`, as an
`Option`. -/
def summaryIdx (content : String) : Option Nat :=
  (contentLines content).findIdx? fun l =>
    containsSub (("# Skill Summary:").data) l

/-- Whether `content.match(/# Skill Summary:\s*(.+)/)` succeeds. -/
def summaryMatches (content : String) : Bool :=
  (findField (("# Skill Summary:").data) content.data).isSome

/-- `skillName.replace(dash regex, ' ')`: every `'-'` becomes `' '`. -/
def replaceDashes (s : String) : String :=
  String.mk (s.data.map fun c => if c = '-' then ' ' else c)

/-- The summary-heading fallback of `parseSkillMetadata` (the
`if (!metadata.description)` block): when the purpose-derived description
`d1` is empty and the summary regex matches, take the line two below the
line containing the heading (trimmed) when it is in bounds, otherwise the
skill name with dashes replaced. -/
def descSummaryFallback (skillName content : String) (d1 : String) : String :=
  if d1 = ("") then
    match findField (("# Skill Summary:").data) content.data with
    | some _ =>
      match summaryIdx content with
      | some idx =>
        if idx + 2 < (contentLines content).length then
          String.mk (jsTrim ((contentLines content).getD (idx + 2) []))
        else replaceDashes skillName
      | none => replaceDashes skillName
    | none => d1
  else d1

/-- The final fallback of `parseSkillMetadata`: an empty description
becomes the skill name with dashes replaced by spaces. -/
def descFinal (skillName d2 : String) : String :=
  if d2 = ("") then replaceDashes skillName else d2

/-- The description computation of `parseSkillMetadata`: `## Purpose`
first line, then the summary-heading fallback (the line two below the
heading line), then the skill name with dashes replaced by spaces. -/
def descriptionOf (skillName content : String) : String :=
  descFinal skillName (descSummaryFallback skillName content (purposeFirstLine content))

/-- `parseSkillMetadata(skillName, content)` of `metadata-parser.ts`.
Total: it never throws. -/
def parseSkillMetadata (skillName content : String) : SkillMetadata :=
  { name := (nameField content).getD skillName
    description := descriptionOf skillName content
    created := createdField content
    requiredMCPServer := mcpServerField content
    mcpServers := (mcpServerField content).map fun m => [m]
    authentication := authField content
    dependsOn := none
    tags := none }

example :
    parseSkillMetadata ("hubspot")
      ("## Metadata\n**Name:** Custom CRM\n## Purpose\nSync data\n") =
    { name := "Custom CRM", description := "Sync data" } := by rfl

/-! ## Skills fetch-and-cache subsystem

The cache file lives in a single on-disk slot.  A `CacheSlot` is `none`
when the file does not exist; otherwise the file either fails
`JSON.parse` (`corrupt`) or parses to a record whose `timestamp` and
`skills` fields may each be missing (`good`). -/

/-- The parsed shape of the cache file: `{ timestamp, skills }`, each
field possibly absent. -/
structure PartialCached where
  timestamp : Option Int
  skills : Option (List SkillMetadata)
  deriving Repr, DecidableEq

/-- Contents of the cache file when it exists. -/
inductive CacheFileContent where
  | good (c : PartialCached)
  | corrupt
  deriving Repr, DecidableEq

/-- The single on-disk cache slot (`none` = file absent). -/
abbrev CacheSlot := Option CacheFileContent

/-- `CACHE_TTL_MS = 24 * 60 * 60 * 1000` (24 hours). -/
def CACHE_TTL_MS : Int := 24 * 60 * 60 * 1000

/-- `isCacheValid()`: read and parse the cache file and compare its age
against the TTL; any read/parse failure yields `false` (and the missing
`timestamp` field makes the `NaN` age comparison false). -/
def isCacheValid (now : Int) (st : CacheSlot) : Bool :=
  match st with
  | some (.good c) =>
    match c.timestamp with
    | some ts => now - ts < CACHE_TTL_MS
    | none => false
  | _ => false

/-- `loadCache()`: return the parsed `skills` field; on a `SyntaxError`
(corrupt file) delete the file and return `null`.  The second component
is the cache slot after the call. -/
def loadCache (st : CacheSlot) : Option (List SkillMetadata) × CacheSlot :=
  match st with
  | some (.good c) => (c.skills, st)
  | some .corrupt => (none, none)
  | none => (none, none)

/-- `saveCache(skills)`: overwrite the slot with a fresh timestamped
snapshot. -/
def saveCache (now : Int) (skills : List SkillMetadata) : CacheSlot :=
  some (.good { timestamp := some now, skills := some skills })

/-- `clearSkillsCache()`: unlink the cache file. -/
def clearSkillsCache (_st : CacheSlot) : CacheSlot :=
  none

/-- `GitHubContent` listing entry. -/
inductive GType where
  | file
  | dir
  deriving Repr, DecidableEq, BEq

/-- One entry of the GitHub contents listing. -/
structure GitHubContent where
  name : String
  path : String
  type : GType
  download_url : Option String := none
  deriving Repr, DecidableEq

/-- The fixed non-skill exclusion set of `fetchSkills`. -/
def EXCLUDED : List String :=
  ["LICENSE", "README.md", "CONTRIBUTING.md", "CONTRIBURING.md", ".git", ".github"]

/-- The remote environment: the catalog listing call (which may fail:
network error, rate limit or non-2xx all end up in the same `catch`) and
the per-skill `SKILL.md` fetch (`none` = network error or non-2xx). -/
structure FetchEnv where
  listing : Except Unit (List GitHubContent)
  skillDoc : String → Option String

/-- `fetchSkillMetadata(skillName)`: fetch `SKILL.md` and parse it;
`null` on any fetch failure. -/
def fetchSkillMetadata (env : FetchEnv) (skillName : String) : Option SkillMetadata :=
  (env.skillDoc skillName).map fun content => parseSkillMetadata skillName content

/-- The directory filter of `fetchSkills`: only `type === 'dir'` entries
outside the exclusion set are candidate skills. -/
def skillDirsOf (contents : List GitHubContent) : List GitHubContent :=
  contents.filter fun item =>
    item.type == GType.dir && !(EXCLUDED.contains item.name)

/-- Stable insertion of a descriptor into a name-sorted list (the element
goes before the first strictly greater name). -/
def insertSkill (x : SkillMetadata) : List SkillMetadata → List SkillMetadata
  | [] => [x]
  | y :: ys => if x.name < y.name then x :: y :: ys else y :: insertSkill x ys

/-- `skills.sort((a, b) => a.name.localeCompare(b.name))`: stable sort by
name (string order models the locale comparison). -/
def sortSkills (l : List SkillMetadata) : List SkillMetadata :=
  l.foldl (fun acc x => insertSkill x acc) []

/-- Result of a `fetchSkills` call: the returned list, the cache slot
after the call, whether the listing call was issued, and the number of
network calls performed. -/
structure FetchResult where
  skills : List SkillMetadata
  cache : CacheSlot
  listingCalled : Bool
  netCalls : Nat
  deriving Repr, DecidableEq

/-- The fetch part of `fetchSkills` (from the `if (forceRefresh)` clear
through the `try`/`catch`): clear the slot on forced refresh, issue the
listing call, and either fetch every candidate's descriptor, drop the
failures, sort, persist and return — or, when the listing call fails,
fall back to whatever snapshot is on disk, else the empty list. -/
def fetchSkillsFromGitHub (env : FetchEnv) (forceRefresh : Bool) (now : Int)
    (st : CacheSlot) : FetchResult :=
  let st2 := if forceRefresh then clearSkillsCache st else st
  match env.listing with
  | .ok contents =>
    let dirs := skillDirsOf contents
    let metas := dirs.map fun d => fetchSkillMetadata env d.name
    let skills := sortSkills (metas.filterMap id)
    { skills := skills
      cache := saveCache now skills
      listingCalled := true
      netCalls := 1 + dirs.length }
  | .error _ =>
    match loadCache st2 with
    | (some cached, st3) =>
      { skills := cached, cache := st3, listingCalled := true, netCalls := 1 }
    | (none, st3) =>
      { skills := [], cache := st3, listingCalled := true, netCalls := 1 }

/-- `fetchSkills(options)`: serve from the cache when it is fresh and not
force-refreshed, otherwise go to GitHub.  Total: it never throws. -/
def fetchSkills (env : FetchEnv) (forceRefresh : Bool) (now : Int)
    (st : CacheSlot) : FetchResult :=
  if !forceRefresh && isCacheValid now st then
    match loadCache st with
    | (some cached, st1) =>
      { skills := cached, cache := st1, listingCalled := false, netCalls := 0 }
    | (none, st1) => fetchSkillsFromGitHub env forceRefresh now st1
  else fetchSkillsFromGitHub env forceRefresh now st

/-! ## Skill installer (`installSkills`) -/

/-- Outcome of one external `npx skills add` invocation: the process
closed with an exit code, errored on spawn, or exceeded the 30-second
bound. -/
inductive ProcOutcome where
  | close (code : Int)
  | procError
  | timedOut
  deriving Repr, DecidableEq

/-- `installSkill(skillName, ...)`: resolves only on exit code 0; a
non-zero exit, a spawn error or the 30-second timeout reject. -/
def installSkill (run : String → ProcOutcome) (name : String) : Except String Unit :=
  match run name with
  | .close code =>
    if code = 0 then .ok ()
    else .error (("Failed to install skill: ") ++ name)
  | .procError => .error name
  | .timedOut => .error (("Skill installation timed out: ") ++ name)

/-- Whether `installSkill` resolves for a given skill. -/
def installOk (run : String → ProcOutcome) (name : String) : Bool :=
  match installSkill run name with
  | .ok _ => true
  | .error _ => false

/-- The `for` loop of `installSkills`: attempt every skill in order; a
rejection pushes the skill onto `failedSkills` and the loop continues. -/
def installFailures (run : String → ProcOutcome) : List String → List String
  | [] => []
  | s :: rest =>
    match installSkill run s with
    | .ok _ => installFailures run rest
    | .error _ => s :: installFailures run rest

/-- What `installSkills` reports after the loop. -/
structure InstallReport where
  failedSkills : List String
  warning : Option String
  deriving Repr, DecidableEq

/-- `installSkills({skills, ...})`: sequential install loop followed by a
single aggregated warning naming the failed skills (none when all
succeeded). -/
def installSkills (run : String → ProcOutcome) (skills : List String) : InstallReport :=
  let failed := installFailures run skills
  { failedSkills := failed
    warning :=
      if 0 < failed.length then
        some (("Some skills failed to install: ") ++ joinComma failed)
      else none }

/-! ## Telemetry flag (`isTelemetryDisabled`) -/

/-- The recognised opt-out values. -/
def disabledValues : List String :=
  ["0", "false", "off", "disable", "disabled", "no"]

/-- `isTelemetryDisabled()`: the `BETTER_AGENTS_TELEMETRY` variable is
modelled as `Option String`; the JS falsy check `!flag` is true for the
empty string as well as for an unset variable. -/
def isTelemetryDisabled (env : Option String) : Bool :=
  match env with
  | none => false
  | some flag =>
    if flag = ("") then false
    else disabledValues.contains (jsTrimStr (jsToLower flag))

/-! ## Project-goal resolution (`collectConfig`) -/

/-- JS truthiness of `cliOptions.goal` (an absent or empty string flag is
falsy). -/
def goalFlagTruthy (cliGoal : Option String) : Bool :=
  match cliGoal with
  | some g => g ≠ ""
  | none => false

/-- `selectedSkills.map(s => `"s"`).join(', ')`. -/
def skillsListText (selected : List String) : String :=
  joinComma (selected.map fun s => ("\"") ++ s ++ ("\""))

/-- The descriptive prefix `Using the ... skill(s), `. -/
def skillsPrefixText (selected : List String) : String :=
  ("Using the ") ++ skillsListText selected ++ (" skill")
    ++ (if 1 < selected.length then ("s") else ("")) ++ (", ")

/-- `projectGoal.charAt(0).toLowerCase() + projectGoal.slice(1)`. -/
def lowerFirstChar (s : String) : String :=
  match s.data with
  | [] => ""
  | c :: rest => String.mk (Char.toLower c :: rest)

/-- Lines 534–542 of `collect-config.ts`: prepend the skills prefix when
skills were selected and no goal flag was given, unless the goal already
starts with `using the` (case-insensitively). -/
def applySkillsPrefix (goalFlag : Bool) (projectGoal : String)
    (selected : List String) : String :=
  if 0 < selected.length ∧ goalFlag = false then
    if jsStartsWith ("using the") (jsToLower projectGoal) = false then
      skillsPrefixText selected ++ lowerFirstChar projectGoal
    else projectGoal
  else projectGoal

/-- The `projectGoal` returned by `collectConfig`: the non-interactive
path returns `cliOptions.goal!` untouched; the interactive path uses the
goal flag when truthy (otherwise the prompted answer) and then applies
the skills prefix. -/
def resolveProjectGoal (nonInteractive : Bool) (cliGoal : Option String)
    (enteredGoal : String) (selected : List String) : String :=
  if nonInteractive then cliGoal.getD ""
  else
    let pg := if goalFlagTruthy cliGoal then cliGoal.getD ("") else enteredGoal
    applySkillsPrefix (goalFlagTruthy cliGoal) pg selected

/-! ## Observers and concrete instances used by the theorems -/

/-- The skills a snapshot on disk would yield through `loadCache` (empty
when no well-formed snapshot exists). -/
def snapshotSkills (st : CacheSlot) : List SkillMetadata :=
  match st with
  | some (.good c) => c.skills.getD []
  | _ => []

/-- Name order on descriptors. -/
def nameLe (a b : SkillMetadata) : Prop :=
  a.name ≤ b.name

/-- A descriptor list sorted by name. -/
def sortedByName (l : List SkillMetadata) : Prop :=
  l.Pairwise nameLe

/-- A `SKILL.md` whose metadata name differs from its directory name. -/
def docCustomName : String :=
  "## Metadata\n**Name:** Custom CRM\n**Created:** 2024-01-01\n\n## Purpose\nSync HubSpot data\n"

/-- A `SKILL.md` without a `**Name:**` field. -/
def docNoName : String :=
  "## Purpose\nHelp with Slack\n"

/-- Environment in which the `hubspot` directory carries `docCustomName`. -/
def envC10 : FetchEnv :=
  ⟨Except.ok [], fun s => if s = ("hubspot") then some docCustomName else none⟩

/-- A document with a summary heading whose immediately following line
(`A`) differs from the line two below (`B`). -/
def docSummary : String :=
  "# Skill Summary: t\nA\nB"

/-- A well-formed summary-style document: heading, blank line,
description. -/
def docSummary2 : String :=
  "# Skill Summary: t\n\nGreat descr\n"

/-- Installer behaviour in which only skill `B` exits non-zero. -/
def runABC : String → ProcOutcome :=
  fun s => if s = ("B") then .close 1 else .close 0

/-- `SKILL.md` served for the `hubspot` entry of the concrete scenario. -/
def hubDoc : String :=
  "## Purpose\nSync HubSpot data\n"

/-- The catalog listing of the concrete scenario: two directories and a
file-typed `LICENSE`. -/
def listingScenario : List GitHubContent :=
  [{ name := "hubspot", path := "skills/hubspot", type := GType.dir },
   { name := "slack", path := "skills/slack", type := GType.dir },
   { name := "LICENSE", path := "LICENSE", type := GType.file }]

/-- Concrete-scenario environment: the listing succeeds, the `slack`
descriptor fetch returns 404 (`none`). -/
def envScenario : FetchEnv :=
  ⟨Except.ok listingScenario, fun s => if s = ("hubspot") then some hubDoc else none⟩

/-- An environment whose listing call fails. -/
def envFailW : FetchEnv :=
  ⟨Except.error (), fun _ => none⟩

/-- A stand-alone descriptor used in cache snapshots of witnesses. -/
def skillX : SkillMetadata :=
  { name := "x", description := "a skill" }

/-! ## Helper lemmas -/

/-- The install loop keeps exactly the skills whose invocation fails, in
input order. -/
theorem installFailures_eq_filter (run : String → ProcOutcome) (l : List String) :
    installFailures run l = l.filter fun s => !installOk run s := by
  induction l with
  | nil => rfl
  | cons s rest ih =>
    cases h : installSkill run s with
    | ok u => simp [installFailures, h, List.filter_cons, installOk, ih]
    | error e => simp [installFailures, h, List.filter_cons, installOk, ih]

/-! ## Claim theorems -/

/-- **C6**: a cache file that exists but fails to parse is treated as a
cache miss by `loadCache` (no snapshot returned) and the corrupt file is
deleted, so a later read starts from an absent file and cannot fail
again; the freshness check also rejects it. -/
theorem loadCache_corrupt_miss_and_delete :
    loadCache (some CacheFileContent.corrupt) = (none, none) ∧
    loadCache ((loadCache (some CacheFileContent.corrupt)).2) = (none, none) ∧
    ∀ now : Int, isCacheValid now (some CacheFileContent.corrupt) = false :=
  ⟨rfl, rfl, fun _ => rfl⟩

/-- **C7**: `installSkills` attempts every skill of the ordered list (the
failed set is a filter over the whole input list, kept in input order; a
non-zero exit, spawn error or 30-second timeout of one skill only marks
that skill and the loop continues), and the final report is a single
aggregated warning naming exactly the failed skills.  In particular for
`[A, B, C]` with `B` exiting non-zero, the report names exactly `[B]`. -/
theorem installSkills_attempts_all_and_aggregates :
    (∀ (run : String → ProcOutcome) (skills : List String),
      (installSkills run skills).failedSkills =
          skills.filter (fun s => !installOk run s) ∧
      (installSkills run skills).warning =
        (if 0 < (skills.filter fun s => !installOk run s).length then
          some (("Some skills failed to install: ")
            ++ joinComma (skills.filter fun s => !installOk run s))
        else none)) ∧
    installSkills runABC [("A"), ("B"), ("C")] =
      { failedSkills := ["B"],
        warning := some ("Some skills failed to install: B") } := by
  refine ⟨fun run skills => ?_, by rfl⟩
  refine ⟨by simp [installSkills, installFailures_eq_filter], ?_⟩
  simp [installSkills, installFailures_eq_filter]

/-- **C9**: `isTelemetryDisabled` is true exactly when the variable is
set and its value, lowercased then trimmed, is one of the recognised
opt-out values; unset (and, per JS falsiness, the empty string, whose
trimmed value is not in the list anyway) and unrecognised values such as
`yes` or `2` do not disable telemetry. -/
theorem isTelemetryDisabled_values :
    isTelemetryDisabled none = false ∧
    (∀ v : String, isTelemetryDisabled (some v) =
      disabledValues.contains (jsTrimStr (jsToLower v))) ∧
    isTelemetryDisabled (some ("yes")) = false ∧
    isTelemetryDisabled (some ("2")) = false ∧
    isTelemetryDisabled (some (" FALSE ")) = true ∧
    isTelemetryDisabled (some ("")) = false := by
  refine ⟨rfl, ?_, by decide, by decide, by decide, rfl⟩
  intro v
  by_cases h : v = ("")
  · subst h; decide
  · simp [isTelemetryDisabled, h]

/-- **C10**: `parseSkillMetadata` is total and resolves the descriptor
name from the `**Name:**` field of the `## Metadata` section when that
field is present, falling back to the given skill name; so the parsed
name can differ from the catalog directory name the skill was fetched
under. -/
theorem parseSkillMetadata_name_resolution :
    (∀ skillName content : String,
      (parseSkillMetadata skillName content).name = (nameField content).getD skillName) ∧
    (parseSkillMetadata ("hubspot") docCustomName).name = ("Custom CRM") ∧
    (("Custom CRM") : String) ≠ ("hubspot") ∧
    fetchSkillMetadata envC10 ("hubspot") =
      some (parseSkillMetadata ("hubspot") docCustomName) ∧
    nameField docNoName = none ∧
    (parseSkillMetadata ("slack-helper") docNoName).name = ("slack-helper") := by
  exact ⟨fun _ _ => rfl, by rfl, by decide, by rfl, by rfl, by rfl⟩

/-- **C5 counterexample**: for the document
`# Skill Summary: t\nA\nB` (no purpose block), the line immediately
following the summary heading is `A`, yet the computed description is
`B` — the code takes `lines[summaryIndex + 2]`, not the first line
following the heading. -/
theorem parseSkillMetadata_summary_skips_first_line :
    purposeFirstLine docSummary = ("") ∧
    (contentLines docSummary).getD 1 [] = ("A").data ∧
    (parseSkillMetadata ("s") docSummary).description = ("B") ∧
    (("B") : String) ≠ ("A") := by
  refine ⟨by rfl, by rfl, by rfl, by decide⟩

/-- **C5 (amended)**: when no purpose block is found, the description
falls back to (a) the line **two below** the line containing the
recognized summary heading (trimmed) when the heading matches, the index
is in bounds and that line is non-blank, and (b) the skill identifier
with dashes replaced by spaces in every other case: when the heading
matches but the index is out of bounds, when the heading matches but the
line two below is blank, and when the heading does not match at all. -/
theorem parseSkillMetadata_description_fallback :
    ∀ skillName content : String,
      purposeFirstLine content = ("") →
      ((∀ idx : Nat,
          summaryMatches content = true →
          summaryIdx content = some idx →
          idx + 2 < (contentLines content).length →
          String.mk (jsTrim ((contentLines content).getD (idx + 2) [])) ≠ ("") →
          (parseSkillMetadata skillName content).description =
            String.mk (jsTrim ((contentLines content).getD (idx + 2) []))) ∧
       (∀ idx : Nat,
          summaryMatches content = true →
          summaryIdx content = some idx →
          ¬ idx + 2 < (contentLines content).length →
          (parseSkillMetadata skillName content).description =
            replaceDashes skillName) ∧
       (∀ idx : Nat,
          summaryMatches content = true →
          summaryIdx content = some idx →
          idx + 2 < (contentLines content).length →
          String.mk (jsTrim ((contentLines content).getD (idx + 2) [])) = ("") →
          (parseSkillMetadata skillName content).description =
            replaceDashes skillName) ∧
       (summaryMatches content = false →
          (parseSkillMetadata skillName content).description =
            replaceDashes skillName)) := by
  intro skillName content h1
  have hdesc : (parseSkillMetadata skillName content).description =
      descFinal skillName (descSummaryFallback skillName content (purposeFirstLine content)) := rfl
  refine ⟨?_, ?_, ?_, ?_⟩
  · intro idx hs hidx hlt hne
    rw [hdesc, h1]
    cases hv : findField (("# Skill Summary:").data) content.data with
    | none =>
      unfold summaryMatches at hs
      rw [hv] at hs
      simp at hs
    | some v =>
      unfold descSummaryFallback
      rw [if_pos rfl, hv, hidx]
      dsimp only
      rw [if_pos hlt]
      unfold descFinal
      rw [if_neg hne]
  · intro idx hs hidx hnlt
    rw [hdesc, h1]
    cases hv : findField (("# Skill Summary:").data) content.data with
    | none =>
      unfold summaryMatches at hs
      rw [hv] at hs
      simp at hs
    | some v =>
      unfold descSummaryFallback
      rw [if_pos rfl, hv, hidx]
      dsimp only
      rw [if_neg hnlt]
      unfold descFinal
      split <;> rfl
  · intro idx hs hidx hlt hblank
    rw [hdesc, h1]
    cases hv : findField (("# Skill Summary:").data) content.data with
    | none =>
      unfold summaryMatches at hs
      rw [hv] at hs
      simp at hs
    | some v =>
      unfold descSummaryFallback
      rw [if_pos rfl, hv, hidx]
      dsimp only
      rw [if_pos hlt]
      unfold descFinal
      rw [if_pos hblank]
  · intro hs
    rw [hdesc, h1]
    cases hv : findField (("# Skill Summary:").data) content.data with
    | some v =>
      unfold summaryMatches at hs
      rw [hv] at hs
      simp at hs
    | none =>
      unfold descSummaryFallback
      rw [if_pos rfl, hv]
      dsimp only
      unfold descFinal
      rw [if_pos rfl]

/-- Witness for the amended C5 at concrete inputs, one per fallback
case: a well-formed summary-style document yields the line two below the
heading; a document whose heading matches on its last line (index out of
bounds) and one whose line two below the heading is blank both yield the
dashed-name fallback, as does a document without markers. -/
theorem parseSkillMetadata_description_fallback_witness :
    (parseSkillMetadata ("my-skill") docSummary2).description = ("Great descr") ∧
    (parseSkillMetadata ("my-skill") ("x\n# Skill Summary: t")).description =
      replaceDashes ("my-skill") ∧
    (parseSkillMetadata ("my-skill") ("# Skill Summary: t\nA\n \nB")).description =
      replaceDashes ("my-skill") ∧
    (parseSkillMetadata ("my-skill") ("no markers here")).description =
      replaceDashes ("my-skill") := by
  refine ⟨?_, ?_, ?_, ?_⟩
  · have h := (parseSkillMetadata_description_fallback ("my-skill") docSummary2 rfl).1
      0 rfl rfl (by decide) (by decide)
    rw [h]
    rfl
  · exact (parseSkillMetadata_description_fallback ("my-skill")
      ("x\n# Skill Summary: t") rfl).2.1 1 rfl rfl (by decide)
  · exact (parseSkillMetadata_description_fallback ("my-skill")
      ("# Skill Summary: t\nA\n \nB") rfl).2.2.1 0 rfl rfl (by decide) (by decide)
  · exact (parseSkillMetadata_description_fallback ("my-skill")
      ("no markers here") rfl).2.2.2 rfl

/-- **C1**: a forced-refresh `fetchSkills` deletes the persisted snapshot
before the listing fetch, for every initial cache state (including a
valid still-fresh snapshot); hence when the listing call fails, the call
returns the empty list — never the pre-call snapshot — and leaves no
cache file behind. -/
theorem fetchSkills_forced_refresh_no_stale_fallback :
    ∀ (sd : String → Option String) (now : Int) (st : CacheSlot),
      (fetchSkills ⟨Except.error (), sd⟩ true now st).skills = [] ∧
      (fetchSkills ⟨Except.error (), sd⟩ true now st).cache = none := by
  intro sd now st
  exact ⟨rfl, rfl⟩

/-- **C2**: for a persisted snapshot with `now - timestamp < TTL`, a
non-forced `fetchSkills` returns exactly the snapshot's skills with zero
network calls and leaves the slot untouched; with `now - timestamp ≥
TTL` it issues the remote listing call. -/
theorem fetchSkills_cache_freshness_expiry :
    ∀ (env : FetchEnv) (ts : Int) (sk : List SkillMetadata) (now : Int),
      (now - ts < CACHE_TTL_MS →
        fetchSkills env false now (some (.good ⟨some ts, some sk⟩)) =
          { skills := sk
            cache := some (.good ⟨some ts, some sk⟩)
            listingCalled := false
            netCalls := 0 }) ∧
      (CACHE_TTL_MS ≤ now - ts →
        (fetchSkills env false now (some (.good ⟨some ts, some sk⟩))).listingCalled = true) := by
  intro env ts sk now
  constructor
  · intro h
    have hv : isCacheValid now (some (.good ⟨some ts, some sk⟩)) = true := by
      simp [isCacheValid]
      exact h
    simp [fetchSkills, hv, loadCache]
  · intro h
    have hv : isCacheValid now (some (.good ⟨some ts, some sk⟩)) = false := by
      simp [isCacheValid]
      exact h
    cases hl : env.listing with
    | ok contents => simp [fetchSkills, hv, fetchSkillsFromGitHub, hl]
    | error e => simp [fetchSkills, hv, fetchSkillsFromGitHub, hl, loadCache, clearSkillsCache]

/-- Witness for C2: a fresh snapshot (age 5 ms) is served without any
network call; at exactly the TTL the listing call is issued. -/
theorem fetchSkills_cache_freshness_expiry_witness :
    fetchSkills envFailW false 5 (some (.good ⟨some 0, some [skillX]⟩)) =
      { skills := [skillX]
        cache := some (.good ⟨some 0, some [skillX]⟩)
        listingCalled := false
        netCalls := 0 } ∧
    (fetchSkills envFailW false CACHE_TTL_MS
        (some (.good ⟨some 0, some [skillX]⟩))).listingCalled = true :=
  ⟨(fetchSkills_cache_freshness_expiry envFailW 0 [skillX] 5).1 (by decide),
   (fetchSkills_cache_freshness_expiry envFailW 0 [skillX] CACHE_TTL_MS).2 (by decide)⟩

/-- **C3**: when the cache is not fresh and the listing call fails, a
non-forced `fetchSkills` re-reads the snapshot on disk and returns its
skills whenever a well-formed snapshot exists — however old — and
returns the empty list when none does; the call is total, so no
exception can reach the caller. -/
theorem fetchSkills_stale_fallback_on_listing_failure :
    ∀ (sd : String → Option String) (now : Int) (st : CacheSlot),
      isCacheValid now st = false →
      (fetchSkills ⟨Except.error (), sd⟩ false now st).listingCalled = true ∧
      (fetchSkills ⟨Except.error (), sd⟩ false now st).skills = snapshotSkills st := by
  intro sd now st h
  have key : fetchSkills ⟨Except.error (), sd⟩ false now st =
      fetchSkillsFromGitHub ⟨Except.error (), sd⟩ false now st := by
    simp [fetchSkills, h]
  rcases st with _ | c
  · exact ⟨by rw [key]; rfl, by rw [key]; rfl⟩
  · cases c with
    | corrupt => exact ⟨by rw [key]; rfl, by rw [key]; rfl⟩
    | good p =>
      cases hp : p.skills with
      | none =>
        constructor
        · rw [key]
          simp [fetchSkillsFromGitHub, clearSkillsCache, loadCache, hp]
        · rw [key]
          simp [fetchSkillsFromGitHub, clearSkillsCache, loadCache, hp, snapshotSkills]
      | some sk =>
        constructor
        · rw [key]
          simp [fetchSkillsFromGitHub, clearSkillsCache, loadCache, hp]
        · rw [key]
          simp [fetchSkillsFromGitHub, clearSkillsCache, loadCache, hp, snapshotSkills]

/-- Witness for C3: an expired snapshot (age `TTL + 5`) is still returned
when the listing call fails, and with no snapshot at all the result is
the empty list. -/
theorem fetchSkills_stale_fallback_witness :
    (fetchSkills envFailW false (CACHE_TTL_MS + 5)
        (some (.good ⟨some 0, some [skillX]⟩))).skills = [skillX] ∧
    (fetchSkills envFailW false 0 none).skills = [] := by
  constructor
  · have h := (fetchSkills_stale_fallback_on_listing_failure (fun _ => none)
      (CACHE_TTL_MS + 5) (some (.good ⟨some 0, some [skillX]⟩)) (by decide)).2
    exact h
  · have h := (fetchSkills_stale_fallback_on_listing_failure (fun _ => none)
      0 none (by decide)).2
    exact h

/-- Membership in an insertion. -/
theorem mem_insertSkill {x z : SkillMetadata} :
    ∀ {l : List SkillMetadata}, z ∈ insertSkill x l ↔ z = x ∨ z ∈ l := by
  intro l
  induction l with
  | nil => simp [insertSkill]
  | cons y ys ih =>
    unfold insertSkill
    by_cases h : x.name < y.name
    · simp [h]
    · simp only [h, if_false, List.mem_cons, ih]
      tauto

/-- Insertion is a permutation of consing. -/
theorem insertSkill_perm (x : SkillMetadata) (l : List SkillMetadata) :
    (insertSkill x l).Perm (x :: l) := by
  induction l with
  | nil => exact List.Perm.refl _
  | cons y ys ih =>
    unfold insertSkill
    by_cases h : x.name < y.name
    · simp [h]
    · simp only [h, if_false]
      exact (ih.cons y).trans (List.Perm.swap x y ys)

/-- Insertion preserves name-sortedness. -/
theorem insertSkill_pairwise (x : SkillMetadata) :
    ∀ {l : List SkillMetadata}, l.Pairwise nameLe → (insertSkill x l).Pairwise nameLe := by
  intro l
  induction l with
  | nil => intro _; simp [insertSkill, nameLe]
  | cons y ys ih =>
    intro h
    rw [List.pairwise_cons] at h
    obtain ⟨hy, hys⟩ := h
    unfold insertSkill
    by_cases hlt : x.name < y.name
    · rw [if_pos hlt, List.pairwise_cons]
      refine ⟨?_, List.Pairwise.cons hy hys⟩
      intro z hz
      rcases List.mem_cons.mp hz with hz | hz
      · subst hz; exact le_of_lt hlt
      · exact le_trans (le_of_lt hlt) (hy z hz)
    · rw [if_neg hlt, List.pairwise_cons]
      refine ⟨?_, ih hys⟩
      intro z hz
      rcases mem_insertSkill.mp hz with hz | hz
      · subst hz; exact not_lt.mp hlt
      · exact hy z hz

/-- The insertion fold is a permutation of appending the input. -/
theorem foldl_insert_perm :
    ∀ (l acc : List SkillMetadata),
      (l.foldl (fun a x => insertSkill x a) acc).Perm (acc ++ l) := by
  intro l
  induction l with
  | nil => intro acc; simp
  | cons x xs ih =>
    intro acc
    simp only [List.foldl_cons]
    refine (ih (insertSkill x acc)).trans ?_
    refine ((insertSkill_perm x acc).append_right xs).trans ?_
    simpa using List.perm_middle.symm

/-- The insertion fold keeps the accumulator sorted. -/
theorem foldl_insert_pairwise :
    ∀ (l acc : List SkillMetadata),
      acc.Pairwise nameLe →
      (l.foldl (fun a x => insertSkill x a) acc).Pairwise nameLe := by
  intro l
  induction l with
  | nil => intro acc h; simpa using h
  | cons x xs ih =>
    intro acc h
    simp only [List.foldl_cons]
    exact ih (insertSkill x acc) (insertSkill_pairwise x h)

/-- `sortSkills` permutes its input. -/
theorem sortSkills_perm (l : List SkillMetadata) : (sortSkills l).Perm l := by
  simpa [sortSkills] using foldl_insert_perm l []

/-- `sortSkills` sorts by name. -/
theorem sortSkills_sorted (l : List SkillMetadata) : sortedByName (sortSkills l) :=
  foldl_insert_pairwise l [] List.Pairwise.nil

/-- Splitting a mapped list into descriptor successes and failures
preserves the count. -/
theorem length_filterMap_id_map {α β : Type} (f : α → Option β) :
    ∀ l : List α,
      ((l.map f).filterMap id).length + (l.filter fun d => (f d).isNone).length
        = l.length := by
  intro l
  induction l with
  | nil => rfl
  | cons a as ih =>
    cases hf : f a with
    | none =>
      have h1 : ((a :: as).map f).filterMap id = (as.map f).filterMap id := by
        simp [List.filterMap_cons, hf]
      have h2 : (a :: as).filter (fun d => (f d).isNone)
          = a :: as.filter (fun d => (f d).isNone) := by
        simp [List.filter_cons, hf]
      rw [h1, h2]
      simp only [List.length_cons]
      omega
    | some b =>
      have h1 : ((a :: as).map f).filterMap id = b :: (as.map f).filterMap id := by
        simp [List.filterMap_cons, hf]
      have h2 : (a :: as).filter (fun d => (f d).isNone)
          = as.filter (fun d => (f d).isNone) := by
        simp [List.filter_cons, hf]
      rw [h1, h2]
      simp only [List.length_cons]
      omega

/-- **C4**: for every successful listing, the candidate set is the
directory-typed entries outside the exclusion set; each candidate whose
descriptor fetch fails is dropped individually (no abort, no exception:
the function is total), the result is exactly the successful descriptors
sorted by name (`N − M` of them), and precisely that list is persisted
as the new snapshot. -/
theorem fetchSkills_partial_descriptor_failure :
    ∀ (env : FetchEnv) (contents : List GitHubContent) (forceRefresh : Bool)
      (now : Int) (st : CacheSlot),
      env.listing = Except.ok contents →
      isCacheValid now st = false →
      (fetchSkills env forceRefresh now st).listingCalled = true ∧
      (fetchSkills env forceRefresh now st).skills =
        sortSkills (((skillDirsOf contents).map fun d =>
          fetchSkillMetadata env d.name).filterMap id) ∧
      sortedByName (fetchSkills env forceRefresh now st).skills ∧
      ((fetchSkills env forceRefresh now st).skills).Perm
        (((skillDirsOf contents).map fun d => fetchSkillMetadata env d.name).filterMap id) ∧
      (fetchSkills env forceRefresh now st).skills.length
          + ((skillDirsOf contents).filter fun d =>
              (fetchSkillMetadata env d.name).isNone).length
        = (skillDirsOf contents).length ∧
      (fetchSkills env forceRefresh now st).cache =
        saveCache now (fetchSkills env forceRefresh now st).skills := by
  intro env contents forceRefresh now st h1 h2
  have key : fetchSkills env forceRefresh now st
      = fetchSkillsFromGitHub env forceRefresh now st := by
    cases forceRefresh
    · simp [fetchSkills, h2]
    · simp [fetchSkills]
  have hr : fetchSkillsFromGitHub env forceRefresh now st =
      { skills := sortSkills (((skillDirsOf contents).map fun d =>
            fetchSkillMetadata env d.name).filterMap id)
        cache := saveCache now (sortSkills (((skillDirsOf contents).map fun d =>
            fetchSkillMetadata env d.name).filterMap id))
        listingCalled := true
        netCalls := 1 + (skillDirsOf contents).length } := by
    simp [fetchSkillsFromGitHub, h1]
  rw [key, hr]
  refine ⟨rfl, rfl, sortSkills_sorted _, sortSkills_perm _, ?_, rfl⟩
  rw [(sortSkills_perm _).length_eq]
  exact length_filterMap_id_map _ _

/-- Witness for C4, the concrete scenario: listing
`[hubspot(dir), slack(dir), LICENSE(file)]` with the `slack` descriptor
fetch returning 404 yields exactly the one `hubspot` descriptor (N = 2
candidates, M = 1 failure) and writes exactly that one entry to the
cache. -/
theorem fetchSkills_partial_descriptor_failure_witness :
    (fetchSkills envScenario false 0 none).listingCalled = true ∧
    (fetchSkills envScenario false 0 none).skills =
      sortSkills (((skillDirsOf listingScenario).map fun d =>
        fetchSkillMetadata envScenario d.name).filterMap id) ∧
    (fetchSkills envScenario false 0 none).skills =
      [parseSkillMetadata ("hubspot") hubDoc] ∧
    (fetchSkills envScenario false 0 none).skills.length = 1 ∧
    (skillDirsOf listingScenario).length = 2 ∧
    (fetchSkills envScenario false 0 none).cache =
      saveCache 0 [parseSkillMetadata ("hubspot") hubDoc] := by
  have h := fetchSkills_partial_descriptor_failure envScenario listingScenario
    false 0 none rfl rfl
  exact ⟨h.1, h.2.1, by rfl, by rfl, by rfl, by rfl⟩

/-- **C8 counterexample**: with one interactively selected skill and no
goal flag, an entered goal that already starts with `Using the` is
returned unchanged — no skills prefix is prepended, contradicting the
claim that the returned goal always equals the entered goal with the
prefix prepended. -/
theorem resolveProjectGoal_no_prefix_counterexample :
    resolveProjectGoal false none ("Using the web, search the docs") [("slack")] =
      ("Using the web, search the docs") ∧
    resolveProjectGoal false none ("Using the web, search the docs") [("slack")] ≠
      skillsPrefixText [("slack")] ++ ("Using the web, search the docs") := by
  exact ⟨by rfl, by decide⟩

/-- **C8 (amended)**: with skills selected and no truthy goal flag, the
interactive path returns the skills prefix followed by the entered goal
with its first character lowercased — unless the entered goal already
starts with `using the` case-insensitively, in which case it is returned
unchanged; a truthy goal flag (and the fully non-interactive path)
returns the supplied goal with nothing prepended, regardless of the
selected skills. -/
theorem resolveProjectGoal_prefix_rules :
    ∀ (cliGoal : Option String) (entered : String) (selected : List String),
      (goalFlagTruthy cliGoal = false → selected ≠ [] →
        resolveProjectGoal false cliGoal entered selected =
          (if jsStartsWith ("using the") (jsToLower entered) = false then
            skillsPrefixText selected ++ lowerFirstChar entered
          else entered)) ∧
      (∀ g : String, cliGoal = some g → g ≠ ("") →
        resolveProjectGoal false cliGoal entered selected = g) ∧
      (∀ g : String, cliGoal = some g →
        resolveProjectGoal true cliGoal entered selected = g) := by
  intro cliGoal entered selected
  refine ⟨?_, ?_, ?_⟩
  · intro hflag hsel
    have hlen : 0 < selected.length := List.length_pos.mpr hsel
    show applySkillsPrefix (goalFlagTruthy cliGoal)
        (if goalFlagTruthy cliGoal then cliGoal.getD ("") else entered) selected = _
    rw [hflag]
    simp only [if_false, Bool.false_eq_true]
    unfold applySkillsPrefix
    rw [if_pos ⟨hlen, rfl⟩]
  · intro g hg hgne
    subst hg
    have hflag : goalFlagTruthy (some g) = true := by
      simp [goalFlagTruthy, hgne]
    show applySkillsPrefix (goalFlagTruthy (some g))
        (if goalFlagTruthy (some g) then (some g).getD ("") else entered) selected = g
    rw [hflag]
    unfold applySkillsPrefix
    simp
  · intro g hg
    subst hg
    rfl

/-- Witness for the amended C8: a goal flag is returned untouched in both
modes even with skills selected; an interactively entered goal gets the
prefix with its first character lowercased. -/
theorem resolveProjectGoal_prefix_rules_witness :
    resolveProjectGoal false none ("Build a crm bot") [("hubspot")] =
      ("Using the \"hubspot\" skill, build a crm bot") ∧
    resolveProjectGoal false (some ("Goal text")) ("ignored") [("hubspot")] =
      ("Goal text") ∧
    resolveProjectGoal true (some ("Goal text")) ("ignored") [("hubspot")] =
      ("Goal text") := by
  refine ⟨?_, ?_, ?_⟩
  · have h := (resolveProjectGoal_prefix_rules none ("Build a crm bot")
      [("hubspot")]).1 rfl (by decide)
    rw [h]
    rfl
  · exact (resolveProjectGoal_prefix_rules (some ("Goal text")) ("ignored")
      [("hubspot")]).2.1 ("Goal text") rfl (by decide)
  · exact (resolveProjectGoal_prefix_rules (some ("Goal text")) ("ignored")
      [("hubspot")]).2.2 ("Goal text") rfl
